import Mathlib

/-!
Shallow embedding of the two utilities in this repository:
`cleanSRT.py` (subtitle filename normalizer) and `generate_mtg_pdf.py`
(grid paginator that lays image cards out on A4 pages).

Python strings are modelled as `List Char`, byte sizes as `Nat`,
floating-point millimetre arithmetic as exact rationals `ℚ`, and the
filesystem as explicit data: an association list of name/size pairs for
the normalizer, and a directory record for the paginator.
-/

namespace CleanSRT

/-- The subtitle extension literal `".srt"`. -/
def srt : List Char := ['.', 's', 'r', 't']

/-- Condition `filename.count("_") > 0 and filename[-4:] == ".srt"`
(cleanSRT.py line 9).  `s.drop (s.length - 4)` is Python's `s[-4:]`:
the last four characters, or the whole string when it is shorter. -/
def srtCheck (s : List Char) : Bool :=
  (0 < s.count '_') && (s.drop (s.length - 4) == srt)

/-- Lines 11-12: `iu = filename.index("_")+1` and
`f2 = (filename[iu:iu+2]+".srt").lower()`. -/
def targetName (s : List Char) : List Char :=
  let iu := s.indexOf '_' + 1
  (((s.drop iu).take 2) ++ srt).map Char.toLower

/-- The working directory: an association list from file name to byte size.
`os.path.isfile`, `os.path.getsize`, `os.remove` and `os.rename` act on it. -/
abbrev FS := List (List Char × Nat)

/-- `os.path.isfile f` on the modelled directory. -/
def isfile (fs : FS) (f : List Char) : Bool := (fs.lookup f).isSome

/-- `os.path.getsize f` on the modelled directory (only ever queried by the
script for files that exist). -/
def getsize (fs : FS) (f : List Char) : Nat := (fs.lookup f).getD 0

/-- `os.remove f` on the modelled directory. -/
def removeFile (fs : FS) (f : List Char) : FS := fs.filter (fun p => p.1 != f)

/-- `os.rename old new`: the file keeps its byte size under the new name.
The script only invokes it when `new` is absent from the directory. -/
def renameFile (fs : FS) (old new : List Char) : FS :=
  (new, getsize fs old) :: removeFile fs old

/-- One iteration of the `for filename in os.listdir()` loop
(cleanSRT.py lines 9-20): extension/underscore check, target-name
computation, then rename, or size-based conflict resolution when the
target name already exists. -/
def processOne (fs : FS) (filename : List Char) : FS :=
  if srtCheck filename then
    let f2 := targetName filename
    if !(isfile fs f2) then renameFile fs filename f2
    else
      if getsize fs f2 > getsize fs filename then
        renameFile (removeFile fs f2) filename f2
      else removeFile fs filename
  else fs

end CleanSRT

namespace MtgPdf

/-- Python `int()` applied to a real value: truncation toward zero. -/
def pyInt (q : ℚ) : ℤ := if q < 0 then ⌈q⌉ else ⌊q⌋

/-- Card width in mm (generate_mtg_pdf.py line 38). -/
def CARD_WIDTH_MM : ℚ := 63

/-- Card height in mm (line 39). -/
def CARD_HEIGHT_MM : ℚ := 88

/-- Page margins in mm (lines 49-52). -/
def MARGIN_TOP : ℚ := 5

def MARGIN_BOTTOM : ℚ := 5

def MARGIN_LEFT : ℚ := 5

def MARGIN_RIGHT : ℚ := 5

/-- Inter-card spacing in mm (lines 55-56). -/
def CARD_SPACING_X : ℚ := 1

def CARD_SPACING_Y : ℚ := 1

/-- `A4[0] / mm` (line 157): the A4 page is 210 mm wide. -/
def page_width : ℚ := 210

/-- `A4[1] / mm` (line 158): the A4 page is 297 mm tall. -/
def page_height : ℚ := 297

/-- Line 161: width left after the side margins. -/
def available_width : ℚ := page_width - MARGIN_LEFT - MARGIN_RIGHT

/-- Line 162: height left after the top and bottom margins. -/
def available_height : ℚ := page_height - MARGIN_TOP - MARGIN_BOTTOM

/-- Lines 165 and 169: `cols = int((aw + sx) / (cw + sx)); cols = min(cols, 3)`. -/
def layout_cols : ℕ :=
  (min (pyInt ((available_width + CARD_SPACING_X) / (CARD_WIDTH_MM + CARD_SPACING_X))) 3).toNat

/-- Lines 166 and 170: `rows = int((ah + sy) / (ch + sy)); rows = min(rows, 3)`. -/
def layout_rows : ℕ :=
  (min (pyInt ((available_height + CARD_SPACING_Y) / (CARD_HEIGHT_MM + CARD_SPACING_Y))) 3).toNat

/-- Line 173: total width occupied by the grid of cards. -/
def total_width : ℚ :=
  (layout_cols : ℚ) * CARD_WIDTH_MM + (((layout_cols : ℤ) - 1 : ℤ) : ℚ) * CARD_SPACING_X

/-- Line 174: total height occupied by the grid of cards. -/
def total_height : ℚ :=
  (layout_rows : ℚ) * CARD_HEIGHT_MM + (((layout_rows : ℤ) - 1 : ℤ) : ℚ) * CARD_SPACING_Y

/-- Line 176: left edge of the centered grid. -/
def layout_start_x : ℚ := MARGIN_LEFT + (available_width - total_width) / 2

/-- Line 177: bottom edge of the centered grid. -/
def layout_start_y : ℚ := MARGIN_BOTTOM + (available_height - total_height) / 2

/-- `calculate_layout()` (lines 149-180): `(cols, rows, start_x, start_y)`. -/
def calculate_layout : ℕ × ℕ × ℚ × ℚ :=
  (layout_cols, layout_rows, layout_start_x, layout_start_y)

/-- Position of batch index `j` on the grid (lines 255-260):
`col = j % cols`, `row = j // cols`,
`x = start_x + col * (cw + sx)`, `y = start_y + (rows - 1 - row) * (ch + sy)`. -/
def slotXY (cols rows : ℕ) (sx sy : ℚ) (j : ℕ) : ℚ × ℚ :=
  (sx + ((j % cols : ℕ) : ℚ) * (CARD_WIDTH_MM + CARD_SPACING_X),
   sy + ((((rows : ℤ) - 1 - ((j / cols : ℕ) : ℤ)) : ℤ) : ℚ) * (CARD_HEIGHT_MM + CARD_SPACING_Y))

/-- The inner loop `for j, image_path in enumerate(batch)` (lines 253-296):
each image of the batch whose load/convert/draw succeeds (`load` is the
success oracle abstracting `resize_image_to_card` and `drawImage`) yields a
card drawn at the slot of its batch index; a failed image is skipped. -/
def makePage {α : Type} (cols rows : ℕ) (sx sy : ℚ) (batch : List α) (load : α → Bool) :
    List (α × ℚ × ℚ) :=
  batch.enum.filterMap
    (fun ji => if load ji.2 then some (ji.2, slotXY cols rows sx sy ji.1) else none)

/-- Fuel-indexed splitting of a list into chunks of `c` elements; the fuel
only bounds the recursion and is immaterial once it is at least the number
of chunks. -/
def chunksGo {α : Type} (c : ℕ) : ℕ → List α → List (List α)
  | _, [] => []
  | 0, _ :: _ => []
  | fuel + 1, a :: l => ((a :: l).take c) :: chunksGo c fuel ((a :: l).drop c)

/-- The batching loop `for i in range(0, len(images), cards_per_page):
batch = images[i:i + cards_per_page]` (lines 245-249). -/
def chunksOf {α : Type} (c : ℕ) (l : List α) : List (List α) := chunksGo c l.length l

/-- `generate_pdf(images, output, preview_only)` (lines 216-306), modelled as
the list of pages it draws, one entry per emitted PDF page, each page the
list of cards placed on it.  The early return on an empty image list (before
the canvas is even created) is `none`. -/
def generate_pdf {α : Type} (images : List α) (load : α → Bool) (preview_only : Bool) :
    Option (List (List (α × ℚ × ℚ))) :=
  if images.isEmpty then none
  else
    let cols := calculate_layout.1
    let rows := calculate_layout.2.1
    let sx := calculate_layout.2.2.1
    let sy := calculate_layout.2.2.2
    let cards_per_page := cols * rows
    let bs := chunksOf cards_per_page images
    let bs2 := if preview_only then bs.take 1 else bs
    some (bs2.map (fun b => makePage cols rows sx sy b load))

/-- Line 59: `ENABLE_CUT_MARKS = False`. -/
def ENABLE_CUT_MARKS : Bool := false

/-- Lines 364-367 of `main()`: `if args.no_cut_marks: ENABLE_CUT_MARKS = False`.
The value of the global flag after argument handling. -/
def effective_cut_marks (no_cut_marks : Bool) : Bool :=
  if no_cut_marks then false else ENABLE_CUT_MARKS

/-- `mm` in points: one millimetre is `72 / 25.4` PostScript points. -/
def mmPt : ℚ := 360 / 127

/-- The four corner points (in points) at which `draw_cut_marks`
(lines 182-214) draws its tick marks for a card at `(x, y)` mm of size
`w × h` mm. -/
def draw_cut_marks (x y w h : ℚ) : List (ℚ × ℚ) :=
  [(x * mmPt, y * mmPt), ((x + w) * mmPt, y * mmPt),
   (x * mmPt, (y + h) * mmPt), ((x + w) * mmPt, (y + h) * mmPt)]

/-- Lines 283-284: the cut-mark corners actually drawn for one card, empty
when the flag is off. -/
def cardCutMarks (flag : Bool) (x y : ℚ) : List (ℚ × ℚ) :=
  if flag then draw_cut_marks x y CARD_WIDTH_MM CARD_HEIGHT_MM else []

/-- The two error values raised by `find_image_files` (lines 93-97):
`FileNotFoundError` and `NotADirectoryError`. -/
inductive PdfError where
  | fileNotFound : PdfError
  | notADirectory : PdfError
deriving DecidableEq

/-- The source directory as seen by `find_image_files`: whether the path
exists, whether it is a directory, and the plain files found below it by
`rglob('*')`. -/
structure Dir where
  pathExists : Bool
  isDir : Bool
  entries : List String
deriving DecidableEq

/-- Python `str.rfind`: index of the last occurrence, `-1` when absent. -/
def pyRfind (cs : List Char) (c : Char) : ℤ :=
  if c ∈ cs then ((cs.length : ℤ) - 1 - (cs.reverse.indexOf c : ℤ)) else -1

/-- `pathlib.PurePath.suffix` on a file name: `name[i:]` for
`i = name.rfind('.')` when `0 < i < len(name) - 1`, else empty. -/
def pySuffix (cs : List Char) : List Char :=
  let i := pyRfind cs '.'
  if 0 < i ∧ i < (cs.length : ℤ) - 1 then cs.drop i.toNat else []

/-- Line 103: `file_path.suffix.lower() in SUPPORTED_EXTENSIONS`. -/
def hasSupportedExt (name : String) : Bool :=
  let sfx := String.mk ((pySuffix name.toList).map Char.toLower)
  sfx == ".png" || sfx == ".jpg" || sfx == ".jpeg"

/-- `find_image_files(source_dir)` (lines 78-107): raise `FileNotFoundError`
when the path does not exist, `NotADirectoryError` when it is not a
directory, else the files with a supported extension, sorted. -/
def find_image_files (d : Dir) : Except PdfError (List String) :=
  if !d.pathExists then Except.error PdfError.fileNotFound
  else if !d.isDir then Except.error PdfError.notADirectory
  else Except.ok (List.insertionSort (· ≤ ·) (d.entries.filter hasSupportedExt))

/-- `main()` (lines 369-386), reduced to its observable outcome:
the process exit code and whether an output document was produced.
A raised discovery error is caught, logged and turned into `sys.exit(1)`
before `generate_pdf` ever runs; an empty discovery result returns
normally without output; otherwise the document is generated and saved. -/
def main_run (d : Dir) : ℕ × Bool :=
  match find_image_files d with
  | Except.error _ => (1, false)
  | Except.ok imgs => if imgs.isEmpty then (0, false) else (0, true)

end MtgPdf

/-! ### Sample data used by witnesses and counterexamples -/

/-- The spec's end-to-end example filename. -/
def fname0 : List Char := "movie_en_full.srt".toList

/-- A working directory holding the scanned file (500 bytes) and an existing
target `en.srt` (300 bytes). -/
def fs0 : CleanSRT.FS := [("movie_en_full.srt".toList, 500), ("en.srt".toList, 300)]

/-- Ten abstract images, as in the spec's end-to-end pagination example. -/
def imgs10 : List ℕ := List.range 10

/-- A four-image batch used to exercise slot placement. -/
def batch0 : List ℕ := [100, 200, 300, 400]

/-- A missing source directory. -/
def dir0 : MtgPdf.Dir := ⟨false, true, ["a.png"]⟩

/-- An existing path that is not a directory. -/
def dir1 : MtgPdf.Dir := ⟨true, false, ["a.png"]⟩

/-! ### Helper lemmas for the filename normalizer -/

namespace CleanSRT

lemma indexOf_lt_of_mem_take {c : Char} (s : List Char) :
    ∀ n : ℕ, c ∈ s.take n → s.indexOf c < n := by
  induction s with
  | nil => intro n h; simp at h
  | cons a t ih =>
    intro n h
    cases n with
    | zero => simp at h
    | succ m =>
      rw [List.take_succ_cons] at h
      rw [List.indexOf_cons]
      by_cases hac : a == c
      · simp [hac]
      · have hmem : c ∈ t.take m := by
          rcases List.mem_cons.mp h with h1 | h1
          · exact absurd (by simp [h1]) hac
          · exact h1
        have := ih m hmem
        simp only [hac, cond_false]
        omega

lemma map_toLower_srt : srt.map Char.toLower = srt := by decide

lemma lookup_removeFile_of_ne (fs : FS) (a b : List Char) (hab : a ≠ b) :
    (removeFile fs b).lookup a = fs.lookup a := by
  induction fs with
  | nil => rfl
  | cons p t ih =>
    obtain ⟨k, v⟩ := p
    by_cases hk : k = b
    · have h1 : (k != b) = false := by simp [hk]
      have h2 : (a == k) = false := by
        simp only [beq_eq_false_iff_ne, ne_eq]
        exact fun hq => hab (hq.trans hk)
      simp only [removeFile, List.filter_cons, h1, Bool.false_eq_true, if_false,
        List.lookup, h2]
      exact ih
    · have h1 : (k != b) = true := by simp [hk]
      simp only [removeFile, List.filter_cons, h1, if_true, List.lookup]
      by_cases hak : (a == k) = true
      · simp only [hak]
      · simp only [Bool.not_eq_true] at hak
        simp only [hak]
        exact ih

lemma lookup_removeFile_self (fs : FS) (b : List Char) :
    (removeFile fs b).lookup b = none := by
  induction fs with
  | nil => rfl
  | cons p t ih =>
    obtain ⟨k, v⟩ := p
    by_cases hk : k = b
    · have h1 : (k != b) = false := by simp [hk]
      simp only [removeFile, List.filter_cons, h1, Bool.false_eq_true, if_false]
      exact ih
    · have h1 : (k != b) = true := by simp [hk]
      have h2 : (b == k) = false := by
        simp only [beq_eq_false_iff_ne, ne_eq]
        exact fun hq => hk hq.symm
      simp only [removeFile, List.filter_cons, h1, if_true, List.lookup, h2]
      exact ih

end CleanSRT

/-! ### Claim C3: code extraction in the filename normalizer -/

/-- C3: for every filename containing at least one underscore and ending in
".srt", the computed target name is the two characters immediately following
the first underscore, lowercased, followed by ".srt" (and that slice really
has exactly two characters, so the lowercased pair is the stem of the
renamed file). -/
theorem C3_code_extraction (s : List Char) (h : CleanSRT.srtCheck s = true) :
    CleanSRT.targetName s =
      ((s.drop (s.indexOf '_' + 1)).take 2).map Char.toLower ++ CleanSRT.srt ∧
    ((s.drop (s.indexOf '_' + 1)).take 2).length = 2 := by
  have h' := h
  simp only [CleanSRT.srtCheck, Bool.and_eq_true, decide_eq_true_eq, beq_iff_eq] at h'
  obtain ⟨hcount, hdrop⟩ := h'
  have hlen4 : s.length - (s.length - 4) = 4 := by
    have hc := congrArg List.length hdrop
    simpa [CleanSRT.srt] using hc
  have hslen : 4 ≤ s.length := by omega
  have hmem : '_' ∈ s := List.count_pos_iff.mp hcount
  have hmem_take : '_' ∈ s.take (s.length - 4) := by
    have hsplit := List.take_append_drop (s.length - 4) s
    have : '_' ∈ s.take (s.length - 4) ++ s.drop (s.length - 4) := by rwa [hsplit]
    rcases List.mem_append.mp this with h1 | h1
    · exact h1
    · rw [hdrop] at h1
      simp [CleanSRT.srt] at h1
  have hidx : s.indexOf '_' < s.length - 4 :=
    CleanSRT.indexOf_lt_of_mem_take s (s.length - 4) hmem_take
  constructor
  · simp only [CleanSRT.targetName, List.map_append, CleanSRT.map_toLower_srt]
  · simp only [List.length_take, List.length_drop]
    omega

/-- C3 witness: the end-to-end example `movie_en_full.srt`, whose target name
is `en.srt`. -/
theorem C3_code_extraction_witness :
    CleanSRT.srtCheck fname0 = true ∧
    (CleanSRT.targetName fname0 =
      ((fname0.drop (fname0.indexOf '_' + 1)).take 2).map Char.toLower ++ CleanSRT.srt ∧
     ((fname0.drop (fname0.indexOf '_' + 1)).take 2).length = 2) :=
  ⟨by decide, C3_code_extraction fname0 (by decide)⟩

/-! ### Claim C1: conflict resolution in the filename normalizer -/

/-- C1 counterexample: with the scanned file `movie_en_full.srt` of 500 bytes
and an existing target `en.srt` of 300 bytes, the script deletes the scanned
file and keeps the 300-byte target, so the final target size is 300, not the
claimed 500. -/
theorem C1_counterexample :
    CleanSRT.getsize (CleanSRT.processOne fs0 fname0) ("en.srt".toList) = 300 ∧
    ¬ CleanSRT.getsize (CleanSRT.processOne fs0 fname0) ("en.srt".toList) = 500 ∧
    CleanSRT.isfile (CleanSRT.processOne fs0 fname0) fname0 = false := by
  refine ⟨?_, ?_, ?_⟩ <;> decide

/-- C1 as amended: on a target-name conflict the file kept under the target
name is the one with the strictly smaller byte size, and on an exact size tie
the pre-existing target file is kept while the newly scanned file is deleted;
the final target size is the minimum of the two sizes, and the scanned name
is always gone. -/
theorem C1_conflict_keeps_smaller (fs : CleanSRT.FS) (filename : List Char)
    (sF sT : ℕ)
    (hchk : CleanSRT.srtCheck filename = true)
    (hF : fs.lookup filename = some sF)
    (hT : fs.lookup (CleanSRT.targetName filename) = some sT)
    (hne : filename ≠ CleanSRT.targetName filename) :
    CleanSRT.isfile (CleanSRT.processOne fs filename) (CleanSRT.targetName filename) = true ∧
    CleanSRT.getsize (CleanSRT.processOne fs filename) (CleanSRT.targetName filename)
      = min sF sT ∧
    CleanSRT.isfile (CleanSRT.processOne fs filename) filename = false := by
  have hsome : CleanSRT.isfile fs (CleanSRT.targetName filename) = true := by
    simp [CleanSRT.isfile, hT]
  have hgT : CleanSRT.getsize fs (CleanSRT.targetName filename) = sT := by
    simp [CleanSRT.getsize, hT]
  have hgF : CleanSRT.getsize fs filename = sF := by
    simp [CleanSRT.getsize, hF]
  by_cases hgt : sT > sF
  · have hres : CleanSRT.processOne fs filename =
        CleanSRT.renameFile (CleanSRT.removeFile fs (CleanSRT.targetName filename))
          filename (CleanSRT.targetName filename) := by
      simp [CleanSRT.processOne, hchk, hsome, hgT, hgF, hgt]
    have hsizeF : CleanSRT.getsize
        (CleanSRT.removeFile fs (CleanSRT.targetName filename)) filename = sF := by
      simp [CleanSRT.getsize,
        CleanSRT.lookup_removeFile_of_ne fs filename (CleanSRT.targetName filename) hne, hF]
    refine ⟨?_, ?_, ?_⟩
    · simp [hres, CleanSRT.renameFile, CleanSRT.isfile, List.lookup]
    · simp only [hres, CleanSRT.renameFile, CleanSRT.getsize, List.lookup, beq_self_eq_true,
        Option.getD_some]
      rw [CleanSRT.lookup_removeFile_of_ne fs filename (CleanSRT.targetName filename) hne,
        hF, Option.getD_some]
      omega
    · have hne' : (filename == CleanSRT.targetName filename) = false := by
        simp only [beq_eq_false_iff_ne, ne_eq]
        exact hne
      simp only [hres, CleanSRT.renameFile, CleanSRT.isfile, List.lookup, hne',
        CleanSRT.lookup_removeFile_self, Option.isSome_none]
  · have hres : CleanSRT.processOne fs filename =
        CleanSRT.removeFile fs filename := by
      simp [CleanSRT.processOne, hchk, hsome, hgT, hgF, hgt]
    refine ⟨?_, ?_, ?_⟩
    · simp [hres, CleanSRT.isfile,
        CleanSRT.lookup_removeFile_of_ne fs (CleanSRT.targetName filename) filename
          (Ne.symm hne), hT]
    · rw [hres]
      simp only [CleanSRT.getsize,
        CleanSRT.lookup_removeFile_of_ne fs (CleanSRT.targetName filename) filename
          (Ne.symm hne), hT, Option.getD_some]
      omega
    · simp [hres, CleanSRT.isfile, CleanSRT.lookup_removeFile_self]

/-- C1 witness: the amended conflict rule applied to the concrete
500-byte/300-byte example; the kept target has the minimum size 300. -/
theorem C1_conflict_keeps_smaller_witness :
    CleanSRT.srtCheck fname0 = true ∧
    fs0.lookup fname0 = some 500 ∧
    fs0.lookup (CleanSRT.targetName fname0) = some 300 ∧
    fname0 ≠ CleanSRT.targetName fname0 ∧
    (CleanSRT.isfile (CleanSRT.processOne fs0 fname0) (CleanSRT.targetName fname0) = true ∧
     CleanSRT.getsize (CleanSRT.processOne fs0 fname0) (CleanSRT.targetName fname0)
       = min 500 300 ∧
     CleanSRT.isfile (CleanSRT.processOne fs0 fname0) fname0 = false) :=
  ⟨by decide, by decide, by decide, by decide,
   C1_conflict_keeps_smaller fs0 fname0 500 300 (by decide) (by decide) (by decide) (by decide)⟩

/-! ### Helper lemmas for the grid paginator -/

namespace MtgPdf

lemma layout_cols_eq : layout_cols = 3 := by
  rw [layout_cols, pyInt, available_width, page_width, MARGIN_LEFT, MARGIN_RIGHT,
    CARD_SPACING_X, CARD_WIDTH_MM]
  rw [if_neg (by norm_num)]
  norm_num
  rfl

lemma layout_rows_eq : layout_rows = 3 := by
  rw [layout_rows, pyInt, available_height, page_height, MARGIN_TOP, MARGIN_BOTTOM,
    CARD_SPACING_Y, CARD_HEIGHT_MM]
  rw [if_neg (by norm_num)]
  norm_num
  rfl

lemma total_width_eq : total_width = 191 := by
  rw [total_width, layout_cols_eq]
  norm_num [CARD_WIDTH_MM, CARD_SPACING_X]

lemma total_height_eq : total_height = 266 := by
  rw [total_height, layout_rows_eq]
  norm_num [CARD_HEIGHT_MM, CARD_SPACING_Y]

lemma layout_start_x_eq : layout_start_x = 19 / 2 := by
  rw [layout_start_x, total_width_eq]
  norm_num [MARGIN_LEFT, available_width, page_width, MARGIN_RIGHT]

lemma layout_start_y_eq : layout_start_y = 31 / 2 := by
  rw [layout_start_y, total_height_eq]
  norm_num [MARGIN_BOTTOM, available_height, page_height, MARGIN_TOP]

lemma calculate_layout_eval : calculate_layout = (3, 3, 19 / 2, 31 / 2) := by
  rw [calculate_layout, layout_cols_eq, layout_rows_eq, layout_start_x_eq, layout_start_y_eq]

lemma div_ceil_step (M N : ℕ) (hM : 0 < M) (hN : 1 ≤ N) :
    (N + M - 1) / M = (N - M + M - 1) / M + 1 := by
  rcases le_or_lt N M with h | h
  · have h0 : N - M = 0 := by omega
    rw [h0, Nat.zero_add]
    have h1 : (M - 1) / M = 0 := Nat.div_eq_of_lt (by omega)
    have h2 : (N + M - 1) / M = 1 :=
      Nat.div_eq_of_lt_le (by omega) (by omega)
    omega
  · have h1 : N - M + M - 1 = N - 1 := by omega
    have h2 : N + M - 1 = (N - 1) + M := by omega
    rw [h1, h2, Nat.add_div_right _ hM]

lemma chunksGo_cons {α : Type} (M fuel : ℕ) (a : α) (t : List α) :
    chunksGo M (fuel + 1) (a :: t) = ((a :: t).take M) :: chunksGo M fuel ((a :: t).drop M) :=
  rfl

lemma chunksGo_length {α : Type} (M : ℕ) (hM : 0 < M) :
    ∀ (fuel : ℕ) (l : List α), l.length ≤ fuel →
      (chunksGo M fuel l).length = (l.length + M - 1) / M := by
  intro fuel
  induction fuel with
  | zero =>
    intro l hl
    have hnil : l = [] := List.eq_nil_of_length_eq_zero (by omega)
    subst hnil
    simp [chunksGo, Nat.div_eq_of_lt (by omega : M - 1 < M)]
  | succ n ih =>
    intro l hl
    cases l with
    | nil => simp [chunksGo, Nat.div_eq_of_lt (by omega : M - 1 < M)]
    | cons a t =>
      rw [chunksGo_cons, List.length_cons]
      have hdl : ((a :: t).drop M).length ≤ n := by
        simp only [List.length_cons] at hl
        simp only [List.length_drop, List.length_cons]
        omega
      rw [ih _ hdl]
      simp only [List.length_drop, List.length_cons]
      exact (div_ceil_step M (t.length + 1) hM (by omega)).symm

lemma chunksOf_length {α : Type} (M : ℕ) (hM : 0 < M) (l : List α) :
    (chunksOf M l).length = (l.length + M - 1) / M :=
  chunksGo_length M hM l.length l le_rfl

lemma chunksGo_join {α : Type} (M : ℕ) (hM : 0 < M) :
    ∀ (fuel : ℕ) (l : List α), l.length ≤ fuel → (chunksGo M fuel l).flatten = l := by
  intro fuel
  induction fuel with
  | zero =>
    intro l hl
    have hnil : l = [] := List.eq_nil_of_length_eq_zero (by omega)
    subst hnil
    rfl
  | succ n ih =>
    intro l hl
    cases l with
    | nil => rfl
    | cons a t =>
      rw [chunksGo_cons, List.flatten_cons]
      have hdl : ((a :: t).drop M).length ≤ n := by
        simp only [List.length_cons] at hl
        simp only [List.length_drop, List.length_cons]
        omega
      rw [ih _ hdl]
      exact List.take_append_drop M (a :: t)

lemma chunksOf_join {α : Type} (M : ℕ) (hM : 0 < M) (l : List α) :
    (chunksOf M l).flatten = l :=
  chunksGo_join M hM l.length l le_rfl

lemma chunksGo_ne_nil {α : Type} (M : ℕ) :
    ∀ (fuel : ℕ) (l : List α), l ≠ [] → l.length ≤ fuel → chunksGo M fuel l ≠ [] := by
  intro fuel l hne hl
  cases fuel with
  | zero =>
    exact absurd (List.eq_nil_of_length_eq_zero (by omega)) hne
  | succ n =>
    cases l with
    | nil => exact absurd rfl hne
    | cons a t =>
      rw [chunksGo_cons]
      exact List.cons_ne_nil _ _

lemma chunksGo_getLast {α : Type} (M : ℕ) (hM : 0 < M) :
    ∀ (fuel : ℕ) (l : List α), l ≠ [] → l.length ≤ fuel →
      ∃ last, (chunksGo M fuel l).getLast? = some last ∧
        last.length = (if l.length % M = 0 then M else l.length % M) := by
  intro fuel
  induction fuel with
  | zero =>
    intro l hne hl
    exact absurd (List.eq_nil_of_length_eq_zero (by omega)) hne
  | succ n ih =>
    intro l hne hl
    cases l with
    | nil => exact absurd rfl hne
    | cons a t =>
      rw [chunksGo_cons]
      have hdl : ((a :: t).drop M).length ≤ n := by
        simp only [List.length_cons] at hl
        simp only [List.length_drop, List.length_cons]
        omega
      by_cases hD : (a :: t).drop M = []
      · rw [hD]
        refine ⟨(a :: t).take M, by simp [chunksGo], ?_⟩
        have hlen : t.length + 1 ≤ M := by
          have hc := congrArg List.length hD
          simp only [List.length_drop, List.length_cons, List.length_nil] at hc
          omega
        simp only [List.length_take, List.length_cons]
        rcases Nat.lt_or_ge (t.length + 1) M with hlt | hge
        · rw [Nat.mod_eq_of_lt hlt, if_neg (by omega)]
          omega
        · have heq : t.length + 1 = M := by omega
          rw [heq, Nat.mod_self, if_pos rfl]
          omega
      · obtain ⟨c, cs, hcs⟩ :=
          List.exists_cons_of_ne_nil (chunksGo_ne_nil M n _ hD hdl)
        obtain ⟨last, hl1, hl2⟩ := ih ((a :: t).drop M) hD hdl
        refine ⟨last, ?_, ?_⟩
        · rw [hcs, List.getLast?_cons_cons, ← hcs, hl1]
        · have hMN : M ≤ t.length + 1 := by
            by_contra hc
            exact hD (List.drop_eq_nil_of_le (by simp only [List.length_cons]; omega))
          simp only [List.length_drop, List.length_cons] at hl2
          rw [hl2, (Nat.mod_eq_sub_mod hMN).symm]
          simp only [List.length_cons]

lemma chunksOf_getLast {α : Type} (M : ℕ) (hM : 0 < M) (l : List α) (hne : l ≠ []) :
    ∃ last, (chunksOf M l).getLast? = some last ∧
      last.length = (if l.length % M = 0 then M else l.length % M) :=
  chunksGo_getLast M hM l.length l hne le_rfl

lemma filterMap_if_map {α β : Type} (P : α → Bool) (g : α → β) :
    ∀ l : List α,
      l.filterMap (fun x => if P x then some (g x) else none) = (l.filter P).map g := by
  intro l
  induction l with
  | nil => rfl
  | cons a t ih =>
    by_cases h : P a
    · simp [List.filterMap_cons, List.filter_cons, h, ih]
    · simp [List.filterMap_cons, List.filter_cons, h, ih]

lemma makePage_eq {α : Type} (cols rows : ℕ) (sx sy : ℚ) (batch : List α) (load : α → Bool) :
    makePage cols rows sx sy batch load =
      (batch.enum.filter (fun ji => load ji.2)).map
        (fun ji => (ji.2, slotXY cols rows sx sy ji.1)) :=
  filterMap_if_map _ _ _

lemma makePage_true {α : Type} (cols rows : ℕ) (sx sy : ℚ) (batch : List α) :
    makePage cols rows sx sy batch (fun _ => true) =
      batch.enum.map (fun ji => (ji.2, slotXY cols rows sx sy ji.1)) := by
  rw [makePage_eq, List.filter_true]

lemma makePage_true_fst {α : Type} (cols rows : ℕ) (sx sy : ℚ) (batch : List α) :
    (makePage cols rows sx sy batch (fun _ => true)).map Prod.fst = batch := by
  rw [makePage_true, List.map_map]
  exact List.enum_map_snd batch

lemma makePage_true_length {α : Type} (cols rows : ℕ) (sx sy : ℚ) (batch : List α) :
    (makePage cols rows sx sy batch (fun _ => true)).length = batch.length := by
  rw [makePage_true, List.length_map, List.enum_length]

lemma generate_pdf_eq {α : Type} (images : List α) (load : α → Bool) (h : images ≠ []) :
    generate_pdf images load false =
      some ((chunksOf 9 images).map (fun b => makePage 3 3 (19 / 2) (31 / 2) b load)) := by
  rw [generate_pdf, if_neg (by simpa [List.isEmpty_iff] using h), calculate_layout_eval]
  rfl

end MtgPdf

/-! ### Claim C2: cut-mark mode -/

/-- C2 counterexample: with the `--no-cut-marks` flag absent the cut-mark
flag is `False` (line 59), not enabled as claimed. -/
theorem C2_counterexample :
    MtgPdf.effective_cut_marks false = false ∧
    ¬ MtgPdf.effective_cut_marks false = true := by
  constructor <;> decide

/-- C2 as amended: cut-mark mode is disabled by default
(`ENABLE_CUT_MARKS = False`), and passing `--no-cut-marks` sets the flag to
`False` again, so the corner tick marks are never drawn either way. -/
theorem C2_cut_marks_disabled :
    MtgPdf.ENABLE_CUT_MARKS = false ∧
    (∀ no_cut_marks : Bool, MtgPdf.effective_cut_marks no_cut_marks = false) ∧
    (∀ (no_cut_marks : Bool) (x y : ℚ),
      MtgPdf.cardCutMarks (MtgPdf.effective_cut_marks no_cut_marks) x y = []) := by
  refine ⟨rfl, ?_, ?_⟩
  · intro b; cases b <;> rfl
  · intro b x y; cases b <;> rfl

/-! ### Claim C4: layout bounds -/

/-- C4: for the fixed A4/5mm/63x88mm/1mm configuration, `calculate_layout`
returns at most 3 columns and 3 rows, and the occupied grid extent
`cols*w + (cols-1)*sx` by `rows*h + (rows-1)*sy` fits inside the available
area after margins in both dimensions. -/
theorem C4_layout_bounds :
    MtgPdf.calculate_layout.1 ≤ 3 ∧ MtgPdf.calculate_layout.2.1 ≤ 3 ∧
    (MtgPdf.calculate_layout.1 : ℚ) * MtgPdf.CARD_WIDTH_MM +
        (((MtgPdf.calculate_layout.1 : ℤ) - 1 : ℤ) : ℚ) * MtgPdf.CARD_SPACING_X ≤
      MtgPdf.available_width ∧
    (MtgPdf.calculate_layout.2.1 : ℚ) * MtgPdf.CARD_HEIGHT_MM +
        (((MtgPdf.calculate_layout.2.1 : ℤ) - 1 : ℤ) : ℚ) * MtgPdf.CARD_SPACING_Y ≤
      MtgPdf.available_height := by
  refine ⟨?_, ?_, ?_, ?_⟩ <;>
    simp only [MtgPdf.calculate_layout_eval] <;>
    norm_num [MtgPdf.CARD_WIDTH_MM, MtgPdf.CARD_SPACING_X, MtgPdf.CARD_HEIGHT_MM,
      MtgPdf.CARD_SPACING_Y, MtgPdf.available_width, MtgPdf.available_height,
      MtgPdf.page_width, MtgPdf.page_height, MtgPdf.MARGIN_LEFT, MtgPdf.MARGIN_RIGHT,
      MtgPdf.MARGIN_TOP, MtgPdf.MARGIN_BOTTOM]

/-! ### Claim C7: centering symmetry -/

/-- C7: the grid's left offset inside the margined area equals the leftover
space on the right, and the bottom offset equals the top leftover; the
centering is exact in rational arithmetic. -/
theorem C7_centering :
    MtgPdf.calculate_layout.2.2.1 - MtgPdf.MARGIN_LEFT =
      MtgPdf.available_width - MtgPdf.total_width -
        (MtgPdf.calculate_layout.2.2.1 - MtgPdf.MARGIN_LEFT) ∧
    MtgPdf.calculate_layout.2.2.2 - MtgPdf.MARGIN_BOTTOM =
      MtgPdf.available_height - MtgPdf.total_height -
        (MtgPdf.calculate_layout.2.2.2 - MtgPdf.MARGIN_BOTTOM) := by
  constructor <;>
    simp only [MtgPdf.calculate_layout, MtgPdf.layout_start_x, MtgPdf.layout_start_y] <;>
    ring

/-! ### Claim C5: pagination count -/

/-- C5 counterexample: ten images with the 3x3 layout produce a 2-page
document, not the claimed 4-page one. -/
theorem C5_counterexample :
    ∃ pages : List (List (ℕ × ℚ × ℚ)),
      MtgPdf.generate_pdf imgs10 (fun _ => true) false = some pages ∧
      pages.length = 2 ∧ pages.length ≠ 4 := by
  refine ⟨_, MtgPdf.generate_pdf_eq imgs10 _ (by decide), ?_, ?_⟩ <;>
    rw [List.length_map, MtgPdf.chunksOf_length 9 (by norm_num) imgs10] <;>
    decide

/-- C5 as amended: with page capacity C = cols*rows = 9, non-preview
`generate_pdf` partitions the images into contiguous batches and emits
exactly ceil(N/9) pages, the last holding `N mod 9` images (or 9 when N is
divisible by 9); in particular 10 images give a 2-page document, 9 images
on page 1 and the 10th alone on page 2. -/
theorem C5_pagination {α : Type} (images : List α) (h : images ≠ []) :
    MtgPdf.calculate_layout.1 * MtgPdf.calculate_layout.2.1 = 9 ∧
    ∃ pages : List (List (α × ℚ × ℚ)),
      MtgPdf.generate_pdf images (fun _ => true) false = some pages ∧
      pages.length = (images.length + 9 - 1) / 9 ∧
      (pages.map (fun p => p.map Prod.fst)).flatten = images ∧
      ∃ last, pages.getLast? = some last ∧
        last.length = if images.length % 9 = 0 then 9 else images.length % 9 := by
  constructor
  · simp [MtgPdf.calculate_layout_eval]
  · refine ⟨_, MtgPdf.generate_pdf_eq images _ h, ?_, ?_, ?_⟩
    · rw [List.length_map, MtgPdf.chunksOf_length 9 (by norm_num) images]
    · have hcong :
          ((MtgPdf.chunksOf 9 images).map
              (fun b => MtgPdf.makePage 3 3 (19 / 2) (31 / 2) b (fun _ => true))).map
            (fun p => p.map Prod.fst) =
          (MtgPdf.chunksOf 9 images).map (fun b => b) := by
        rw [List.map_map]
        exact List.map_congr_left
          (fun b _ => MtgPdf.makePage_true_fst 3 3 (19 / 2) (31 / 2) b)
      rw [hcong, List.map_id']
      exact MtgPdf.chunksOf_join 9 (by norm_num) images
    · obtain ⟨last, hl1, hl2⟩ := MtgPdf.chunksOf_getLast 9 (by norm_num) images h
      refine ⟨MtgPdf.makePage 3 3 (19 / 2) (31 / 2) last (fun _ => true), ?_, ?_⟩
      · rw [List.getLast?_map, hl1]
        rfl
      · rw [MtgPdf.makePage_true_length, hl2]

/-- C5 witness: the amended pagination facts at the concrete ten-image
example. -/
theorem C5_pagination_witness :
    imgs10 ≠ [] ∧
    (MtgPdf.calculate_layout.1 * MtgPdf.calculate_layout.2.1 = 9 ∧
     ∃ pages : List (List (ℕ × ℚ × ℚ)),
       MtgPdf.generate_pdf imgs10 (fun _ => true) false = some pages ∧
       pages.length = (imgs10.length + 9 - 1) / 9 ∧
       (pages.map (fun p => p.map Prod.fst)).flatten = imgs10 ∧
       ∃ last, pages.getLast? = some last ∧
         last.length = if imgs10.length % 9 = 0 then 9 else imgs10.length % 9) :=
  ⟨by decide, C5_pagination imgs10 (by decide)⟩

/-! ### Claim C6: slot placement -/

/-- C6: batch index j is placed at grid coordinate (j mod cols, j div cols):
the j-th card of a fully-loading page is the j-th batch image at slot j;
the slot position is exactly `x = start_x + col*(w+sx)`,
`y = start_y + (rows-1-row)*(h+sy)`; and a larger row index is drawn strictly
lower on the page (row 0 topmost in the bottom-left-origin system). -/
theorem C6_slot_placement {α : Type} (batch : List α) (j : ℕ) (img : α)
    (h1 : batch[j]? = some img) :
    (MtgPdf.makePage MtgPdf.layout_cols MtgPdf.layout_rows MtgPdf.layout_start_x
        MtgPdf.layout_start_y batch (fun _ => true))[j]? =
      some (img, MtgPdf.slotXY MtgPdf.layout_cols MtgPdf.layout_rows MtgPdf.layout_start_x
        MtgPdf.layout_start_y j) ∧
    MtgPdf.slotXY MtgPdf.layout_cols MtgPdf.layout_rows MtgPdf.layout_start_x
        MtgPdf.layout_start_y j =
      (MtgPdf.layout_start_x +
        ((j % MtgPdf.layout_cols : ℕ) : ℚ) * (MtgPdf.CARD_WIDTH_MM + MtgPdf.CARD_SPACING_X),
       MtgPdf.layout_start_y +
        ((((MtgPdf.layout_rows : ℤ) - 1 - ((j / MtgPdf.layout_cols : ℕ) : ℤ)) : ℤ) : ℚ) *
          (MtgPdf.CARD_HEIGHT_MM + MtgPdf.CARD_SPACING_Y)) ∧
    ∀ j2 : ℕ, j2 < MtgPdf.layout_cols * MtgPdf.layout_rows →
      j % MtgPdf.layout_cols = j2 % MtgPdf.layout_cols →
      j / MtgPdf.layout_cols < j2 / MtgPdf.layout_cols →
      (MtgPdf.slotXY MtgPdf.layout_cols MtgPdf.layout_rows MtgPdf.layout_start_x
        MtgPdf.layout_start_y j2).2 <
      (MtgPdf.slotXY MtgPdf.layout_cols MtgPdf.layout_rows MtgPdf.layout_start_x
        MtgPdf.layout_start_y j).2 := by
  refine ⟨?_, rfl, ?_⟩
  · rw [MtgPdf.makePage_true, List.getElem?_map, List.getElem?_enum, h1]
    rfl
  · intro j2 _ _ hrow
    simp only [MtgPdf.slotXY]
    have hlt : ((MtgPdf.layout_rows : ℤ) - 1 - ((j2 / MtgPdf.layout_cols : ℕ) : ℤ)) <
        ((MtgPdf.layout_rows : ℤ) - 1 - ((j / MtgPdf.layout_cols : ℕ) : ℤ)) := by
      omega
    have hpos : (0 : ℚ) < MtgPdf.CARD_HEIGHT_MM + MtgPdf.CARD_SPACING_Y := by
      norm_num [MtgPdf.CARD_HEIGHT_MM, MtgPdf.CARD_SPACING_Y]
    exact add_lt_add_left (mul_lt_mul_of_pos_right (by exact_mod_cast hlt) hpos) _

/-- C6 witness: in the four-image batch, index 3 (column 0 of row 1) is
placed at its computed slot. -/
theorem C6_slot_placement_witness :
    batch0[3]? = some 400 ∧
    ((MtgPdf.makePage MtgPdf.layout_cols MtgPdf.layout_rows MtgPdf.layout_start_x
        MtgPdf.layout_start_y batch0 (fun _ => true))[3]? =
      some (400, MtgPdf.slotXY MtgPdf.layout_cols MtgPdf.layout_rows MtgPdf.layout_start_x
        MtgPdf.layout_start_y 3) ∧
     MtgPdf.slotXY MtgPdf.layout_cols MtgPdf.layout_rows MtgPdf.layout_start_x
        MtgPdf.layout_start_y 3 =
      (MtgPdf.layout_start_x +
        ((3 % MtgPdf.layout_cols : ℕ) : ℚ) * (MtgPdf.CARD_WIDTH_MM + MtgPdf.CARD_SPACING_X),
       MtgPdf.layout_start_y +
        ((((MtgPdf.layout_rows : ℤ) - 1 - ((3 / MtgPdf.layout_cols : ℕ) : ℤ)) : ℤ) : ℚ) *
          (MtgPdf.CARD_HEIGHT_MM + MtgPdf.CARD_SPACING_Y)) ∧
     ∀ j2 : ℕ, j2 < MtgPdf.layout_cols * MtgPdf.layout_rows →
      3 % MtgPdf.layout_cols = j2 % MtgPdf.layout_cols →
      3 / MtgPdf.layout_cols < j2 / MtgPdf.layout_cols →
      (MtgPdf.slotXY MtgPdf.layout_cols MtgPdf.layout_rows MtgPdf.layout_start_x
        MtgPdf.layout_start_y j2).2 <
      (MtgPdf.slotXY MtgPdf.layout_cols MtgPdf.layout_rows MtgPdf.layout_start_x
        MtgPdf.layout_start_y 3).2) :=
  ⟨by decide, C6_slot_placement batch0 3 400 (by decide)⟩

/-! ### Claim C8: directory-level error handling -/

/-- C8: a missing source directory makes discovery fail with the
file-not-found error, an existing non-directory path with the
not-a-directory error, and in both cases the run exits with code 1 and no
output document is produced. -/
theorem C8_directory_errors (d : MtgPdf.Dir)
    (h : d.pathExists = false ∨ d.isDir = false) :
    MtgPdf.find_image_files d =
      Except.error (if d.pathExists then MtgPdf.PdfError.notADirectory
        else MtgPdf.PdfError.fileNotFound) ∧
    MtgPdf.main_run d = (1, false) := by
  cases hp : d.pathExists with
  | false =>
    constructor
    · simp [MtgPdf.find_image_files, hp]
    · simp [MtgPdf.main_run, MtgPdf.find_image_files, hp]
  | true =>
    have hd : d.isDir = false := by
      rcases h with h | h
      · rw [hp] at h
        exact absurd h (by decide)
      · exact h
    constructor
    · simp [MtgPdf.find_image_files, hp, hd]
    · simp [MtgPdf.main_run, MtgPdf.find_image_files, hp, hd]

/-- C8 witness: the missing directory `dir0` yields the file-not-found
error, exit code 1 and no output. -/
theorem C8_directory_errors_witness :
    (dir0.pathExists = false ∨ dir0.isDir = false) ∧
    (MtgPdf.find_image_files dir0 =
      Except.error (if dir0.pathExists then MtgPdf.PdfError.notADirectory
        else MtgPdf.PdfError.fileNotFound) ∧
     MtgPdf.main_run dir0 = (1, false)) :=
  ⟨by decide, C8_directory_errors dir0 (by decide)⟩

/-! ### Claim C9: per-image error handling -/

/-- C9: within a page, precisely the images whose load succeeds are placed,
each at the slot of its own batch index (a failed image skips only its own
slot and shifts nothing), and a card is on the page exactly when its image
sits at some batch index, loads successfully, and is drawn at that index's
slot; a per-image failure never aborts the page. -/
theorem C9_per_image_skip {α : Type} (cols rows : ℕ) (sx sy : ℚ)
    (batch : List α) (load : α → Bool) :
    MtgPdf.makePage cols rows sx sy batch load =
      (batch.enum.filter (fun ji => load ji.2)).map
        (fun ji => (ji.2, MtgPdf.slotXY cols rows sx sy ji.1)) ∧
    ∀ p : α × ℚ × ℚ, p ∈ MtgPdf.makePage cols rows sx sy batch load ↔
      ∃ j : ℕ, batch[j]? = some p.1 ∧ load p.1 = true ∧
        p.2 = MtgPdf.slotXY cols rows sx sy j := by
  refine ⟨MtgPdf.makePage_eq cols rows sx sy batch load, ?_⟩
  intro p
  rw [MtgPdf.makePage_eq]
  constructor
  · intro hp
    obtain ⟨ji, hmem, hje⟩ := List.mem_map.mp hp
    obtain ⟨hmem2, hP⟩ := List.mem_filter.mp hmem
    have hji : batch[ji.1]? = some ji.2 := List.mem_enum_iff_getElem?.mp hmem2
    subst hje
    exact ⟨ji.1, hji, hP, rfl⟩
  · intro hp
    obtain ⟨j, hj, hload, hslot⟩ := hp
    apply List.mem_map.mpr
    refine ⟨(j, p.1), ?_, ?_⟩
    · exact List.mem_filter.mpr
        ⟨List.mem_enum_iff_getElem?.mpr hj, hload⟩
    · obtain ⟨p1, p2⟩ := p
      simp only at hslot
      rw [hslot]

/-! ### Claim C10: page count is independent of load failures -/

/-- C10: in non-preview mode one page is finalized per batch unconditionally,
so for any load oracle the page count is ceil(N/9); with an all-failing
oracle the document still has ceil(N/9) pages, all of them empty. -/
theorem C10_page_count {α : Type} (images : List α) (load : α → Bool)
    (h : images ≠ []) :
    (∃ pages : List (List (α × ℚ × ℚ)),
       MtgPdf.generate_pdf images load false = some pages ∧
       pages.length = (images.length + 9 - 1) / 9) ∧
    MtgPdf.generate_pdf images (fun _ => false) false =
      some (List.replicate ((images.length + 9 - 1) / 9) ([] : List (α × ℚ × ℚ))) := by
  constructor
  · refine ⟨_, MtgPdf.generate_pdf_eq images load h, ?_⟩
    rw [List.length_map, MtgPdf.chunksOf_length 9 (by norm_num) images]
  · rw [MtgPdf.generate_pdf_eq images _ h]
    congr 1
    have hmk : ∀ b : List α,
        MtgPdf.makePage 3 3 (19 / 2) (31 / 2) b (fun _ => false) = [] := by
      intro b
      rw [MtgPdf.makePage_eq, List.filter_false, List.map_nil]
    rw [List.map_congr_left (fun b _ => hmk b), List.map_const']
    rw [MtgPdf.chunksOf_length 9 (by norm_num) images]

/-- C10 witness: two images, one of which fails to load, still give the one
page that ceil(2/9) predicts, and an all-failing load gives one empty page. -/
theorem C10_page_count_witness :
    ([1, 2] : List ℕ) ≠ [] ∧
    ((∃ pages : List (List (ℕ × ℚ × ℚ)),
        MtgPdf.generate_pdf [1, 2] (fun n => n == 1) false = some pages ∧
        pages.length = (([1, 2] : List ℕ).length + 9 - 1) / 9) ∧
     MtgPdf.generate_pdf ([1, 2] : List ℕ) (fun _ => false) false =
       some (List.replicate ((([1, 2] : List ℕ).length + 9 - 1) / 9)
         ([] : List (ℕ × ℚ × ℚ)))) :=
  ⟨by decide, C10_page_count [1, 2] (fun n => n == 1) (by decide)⟩
